import Mathlib

/-!
Verification of the NAS-backup directory-sync engine of `raspberry-pi-scripts`:
a shallow embedding of the client-side planner/executor (`client/app.py`) and the
server-side path resolver and file operations (`host/app.py`), with proofs of the
specified invariants.

Python dictionaries are modelled as association lists with unique keys; Python
strings are modelled as Lean `String` (operated on through their `List Char`
representation so that everything kernel-reduces); byte sizes are modelled as
`Int` (Python integers are unbounded and a remote payload may carry any int).
-/

namespace NASBackup

/-- Dictionary lookup, `m[k]` / `m.get(k)`: the value of the first entry whose
key equals `p`, `none` when absent.  Association lists built by the operations
below keep keys unique, matching Python `dict` semantics. -/
def dlookup {α : Type} : List (String × α) → String → Option α
  | [], _ => none
  | (k, v) :: rest, p => if p = k then some v else dlookup rest p

/-- Dictionary key removal (`del m[k]`, or a no-op when absent): drops every
entry whose key equals `k`, keeping the rest in order. -/
def dremove {α : Type} : List (String × α) → String → List (String × α)
  | [], _ => []
  | (k', v) :: rest, k => if k' = k then dremove rest k else (k', v) :: dremove rest k

/-- Dictionary assignment `m[k] = v`: the result looks up `v` at `k` and is
unchanged elsewhere, and keeps keys unique. -/
def dinsert {α : Type} (m : List (String × α)) (k : String) (v : α) : List (String × α) :=
  (k, v) :: dremove m k

/-- Keys of the dictionary are pairwise distinct (always true of a Python dict). -/
def KeysNodup {α : Type} (m : List (String × α)) : Prop :=
  (m.map Prod.fst).Nodup

instance {α : Type} (m : List (String × α)) : Decidable (KeysNodup m) := by
  unfold KeysNodup; infer_instance

/-- Sync planner, upload set (client `app.py` line 553):
`to_upload = [p for p, sz in local_files.items() if p not in remote_files or remote_files[p] != sz]`. -/
def to_upload (local_files remote_files : List (String × Int)) : List String :=
  (local_files.filter (fun e =>
      decide (dlookup remote_files e.1 = none) || decide (dlookup remote_files e.1 ≠ some e.2))).map
    Prod.fst

/-- Sync planner, delete set (client `app.py` line 554):
`to_delete = [p for p in remote_files.keys() if p not in local_files]`. -/
def to_delete (local_files remote_files : List (String × Int)) : List String :=
  (remote_files.map Prod.fst).filter (fun p => decide (dlookup local_files p = none))

/-- One upload's effect on the remote snapshot: after a successful
`upload_directory_file` for `p`, the remote copy of `p` has the local file's
size, so the remote snapshot maps `p` to `local_files[p]`. -/
def uploadStep (local_files : List (String × Int)) (m : List (String × Int)) (p : String) :
    List (String × Int) :=
  match dlookup local_files p with
  | some v => dinsert m p v
  | none => m

/-- Applying a computed plan to the remote snapshot: each path of the upload
set is set to its local size, then each path of the delete set is removed
(the order `sync_directory` uses: uploads first, then deletes). -/
def applyPlan (local_files remote_files : List (String × Int)) : List (String × Int) :=
  (to_delete local_files remote_files).foldl (fun m q => dremove m q)
    ((to_upload local_files remote_files).foldl (uploadStep local_files) remote_files)

/-- Split a character list at every occurrence of `c`
(Python `str.split(sep)` for a one-character separator): always nonempty,
adjacent separators yield empty components. -/
def splitOnChar (c : Char) : List Char → List (List Char)
  | [] => [[]]
  | x :: xs =>
      let r := splitOnChar c xs
      if x = c then [] :: r
      else
        match r with
        | [] => [[x]]
        | y :: ys => (x :: y) :: ys

/-- Python `str.replace("\\", "/")`: character-wise because both pattern and
replacement are single characters. -/
def backslashToSlash (s : List Char) : List Char :=
  s.map (fun c => if c = '\\' then '/' else c)

/-- Python `str.lstrip("/")`: drop every leading `/`. -/
def stripLeadSlashes : List Char → List Char
  | [] => []
  | c :: cs => if c = '/' then stripLeadSlashes cs else c :: cs

/-- The component-collapsing loop of CPython `posixpath.normpath`: skips empty
and `.` components; a `..` is appended when there is nothing to pop (relative
path at its start, or a stack already ending in `..`), otherwise it pops the
previous component; at an absolute root a `..` is silently dropped. -/
def normpathComps (initSlashes : Nat) (comps : List (List Char)) : List (List Char) :=
  comps.foldl (fun acc comp =>
    if comp = [] ∨ comp = ['.'] then acc
    else if comp ≠ ['.', '.'] ∨ (initSlashes = 0 ∧ acc = []) ∨ acc.getLast? = some ['.', '.'] then
      acc ++ [comp]
    else if acc ≠ [] then acc.dropLast
    else acc) []

/-- CPython `posixpath.normpath`: collapse `//` and `.` segments and resolve
`..` segments purely lexically; `""` normalizes to `"."`; one leading slash is
kept (two exactly are kept as `//`, POSIX-style). -/
def normpathL (p : List Char) : List Char :=
  if p = [] then ['.']
  else
    let initSlashes : Nat :=
      if p.take 1 = ['/'] then
        if p.take 2 = ['/', '/'] ∧ p.take 3 ≠ ['/', '/', '/'] then 2 else 1
      else 0
    let out := List.replicate initSlashes '/' ++
      List.intercalate ['/'] (normpathComps initSlashes (splitOnChar '/' p))
    if out = [] then ['.'] else out

/-- CPython `posixpath.join` restricted to two arguments: an absolute second
argument replaces the first, otherwise the two are glued with `/` unless the
first is empty or already ends in `/`. -/
def pjoinL (a b : List Char) : List Char :=
  if b.take 1 = ['/'] then b
  else if a = [] ∨ a.getLast? = some '/' then a ++ b
  else a ++ '/' :: b

/-- CPython `posixpath.basename`: everything after the last `/`
(the whole string when there is no `/`). -/
def basenameL (p : List Char) : List Char :=
  (splitOnChar '/' p).getLastD p

/-- Models `os.path.realpath` (host `app.py` `_realpath`) for an absolute input
path on a symlink-free filesystem, where resolving the path physically
coincides with lexical normalization. -/
def realpathL (p : List Char) : List Char :=
  normpathL p

/-- The normalized relative path the host resolver computes from its input:
`norm = os.path.normpath(str(rel_path).replace('\\', '/').lstrip('/'))`
(host `app.py` lines 52-53). -/
def clientNorm (rp : String) : List Char :=
  normpathL (stripLeadSlashes (backslashToSlash rp.data))

/-- The rejection test of host `app.py` line 55:
`norm in ("", ".") or norm.startswith("..") or os.path.isabs(norm)`. -/
def normRejected (rp : String) : Prop :=
  clientNorm rp = [] ∨ clientNorm rp = ['.'] ∨
    ['.', '.'].isPrefixOf (clientNorm rp) = true ∨ (clientNorm rp).take 1 = ['/']

instance (rp : String) : Decidable (normRejected rp) := by
  unfold normRejected; infer_instance

/-- The canonicalized absolute target,
`full = _realpath(os.path.join(base, norm))` (host `app.py` lines 58-59),
with `base = _realpath(UPLOAD_FOLDER)` supplied as the already-configured root. -/
def resolvedFull (base rp : String) : List Char :=
  realpathL (pjoinL (realpathL base.data) (clientNorm rp))

/-- The containment test of host `app.py` line 62:
`full != base and not full.startswith(base + os.sep)`. -/
def escapesRoot (base rp : String) : Prop :=
  resolvedFull base rp ≠ realpathL base.data ∧
    ¬ ((realpathL base.data ++ ['/']).isPrefixOf (resolvedFull base rp) = true)

instance (base rp : String) : Decidable (escapesRoot base rp) := by
  unfold escapesRoot; infer_instance

/-- Host `app.py` `resolve_path_under_upload` (lines 43-65): validates a
caller-supplied relative path against the upload root; returns the absolute
target and the normalized relative path, or raises `ValueError` (modelled as
`Except.error` carrying the message). -/
def resolve_path_under_upload (base : String) (rel_path : Option String) :
    Except String (String × String) :=
  match rel_path with
  | none => .error "path is required"
  | some rp =>
      if normRejected rp then .error "invalid relative path"
      else if escapesRoot base rp then .error "path escapes upload folder"
      else .ok (⟨resolvedFull base rp⟩, ⟨backslashToSlash (clientNorm rp)⟩)

/-- Client `app.py` `_remote_dir_name` (lines 475-478): the basename of the
normalized local directory path, with the literal fallback `"dir"` when that
basename is empty. -/
def _remote_dir_name (local_dir : String) : String :=
  let name : String := ⟨basenameL (normpathL local_dir.data)⟩
  if name = "" then "dir" else name

/-- A transport request issued by `sync_directory`: a directory-item upload
(`POST /upload`) or a delete by relative path (`DELETE /file`). -/
inductive Req where
  | upload (p : String)
  | delete (p : String)
deriving DecidableEq

/-- The HTTP reply a transport call yields, as far as the client inspects it:
the status code and the decoded JSON `success` flag. -/
structure HttpReply where
  status : Nat
  success : Bool

/-- Client `app.py` `upload_directory_file` (lines 520-532) after the request
returned: raises `RuntimeError` on a non-200 status or an unsuccessful JSON
payload, otherwise returns normally. -/
def upload_directory_file_check (resp : HttpReply) : Except String Unit :=
  if resp.status ≠ 200 then .error "Upload failed: HTTP"
  else if resp.success = false then .error "Upload failed: payload"
  else .ok ()

/-- Client `app.py` `delete_remote_file` (lines 534-539) after the request
returned: raises `RuntimeError` unless the status is 200 or 404. -/
def delete_remote_file_check (status : Nat) : Except String Unit :=
  if status ≠ 200 ∧ status ≠ 404 then .error "Delete failed: HTTP" else .ok ()

/-- One phase of `sync_directory`'s executor (the upload loop of lines 560-563
or the delete loop of lines 566-569) run against a transport whose per-item
outcome is `ok`: returns the items for which a request was issued (the loop
stops right after the first failing item, whose request was still issued), the
items that succeeded, and whether the whole phase completed. -/
def runPhase (ok : String → Bool) : List String → List String × List String × Bool
  | [] => ([], [], true)
  | p :: ps =>
      if ok p then
        let r := runPhase ok ps
        (p :: r.1, p :: r.2.1, r.2.2)
      else ([p], [], false)

/-- The observable outcome of one `sync_directory` call: the requests issued in
order, the requests that succeeded, and `some (uploaded, deleted)` on normal
return or `none` when an exception propagated out of the call. -/
structure SyncOutcome where
  issued : List Req
  applied : List Req
  result : Option (Nat × Nat)
deriving DecidableEq

/-- Client `app.py` `sync_directory` (lines 541-571) from the point where both
snapshots are available: computes the plan, runs every upload before any
delete, aborts at the first item whose transport call raises, and returns the
`(uploaded, deleted)` counters only when both loops complete. -/
def sync_directory (okU okD : String → Bool) (lf rf : List (String × Int)) : SyncOutcome :=
  let up := to_upload lf rf
  let del := to_delete lf rf
  let ru := runPhase okU up
  if ru.2.2 then
    let rd := runPhase okD del
    { issued := ru.1.map Req.upload ++ rd.1.map Req.delete
      applied := ru.2.1.map Req.upload ++ rd.2.1.map Req.delete
      result := if rd.2.2 then some (ru.2.1.length, rd.2.1.length) else none }
  else
    { issued := ru.1.map Req.upload
      applied := ru.2.1.map Req.upload
      result := none }

/-- Effect of the successfully applied requests on the remote snapshot: a
successful upload of `p` stores a remote copy of size `local_files[p]`, a
successful delete removes `p`. -/
def applyReqs (lf : List (String × Int)) (rs : List Req) (rf : List (String × Int)) :
    List (String × Int) :=
  rs.foldl (fun m r =>
    match r with
    | .upload p => uploadStep lf m p
    | .delete p => dremove m p) rf

/-- A record of the persisted tracking list (client `app.py` `file_data`):
`{'path': ..., 'last_backup': ..., 'added_date': ...}`. -/
structure TrackedTarget where
  path : String
  last_backup : Option String
  added_date : String
deriving DecidableEq

/-- Client `app.py` `update_file_backup_time` (lines 339-346): sets
`last_backup` of the first record whose path equals `file_path` to the current
time and leaves every other record unchanged. -/
def update_file_backup_time : List TrackedTarget → String → String → List TrackedTarget
  | [], _, _ => []
  | t :: ts, file_path, now =>
      if t.path = file_path then { t with last_backup := some now } :: ts
      else t :: update_file_backup_time ts file_path now

/-- One directory target's slice of client `app.py` `perform_backup`
(lines 389-428): the `try` body scans the directory, lists the remote
directory, runs `sync_directory`, and only after it returns normally schedules
`update_file_backup_time`; any exception earlier (scan, remote listing, or a
transport failure inside the plan) lands in the `except` arms, which record the
failure and leave the tracking store untouched, while whatever the sync already
applied stays on the remote side. -/
def directoryJob (scanOk listOk : Bool) (okU okD : String → Bool)
    (store : List TrackedTarget) (tpath now : String)
    (lf rf : List (String × Int)) : List TrackedTarget × List (String × Int) × Bool :=
  if scanOk = false ∨ listOk = false then (store, rf, false)
  else
    let o := sync_directory okU okD lf rf
    match o.result with
    | some _ => (update_file_backup_time store tpath now, applyReqs lf o.applied rf, true)
    | none => (store, applyReqs lf o.applied rf, false)

/-- The legacy single-file loop of client `app.py` `perform_backup`
(lines 385-428): each target is processed inside its own `try`; a failure is
recorded as a string in `failed` and the loop continues with the next target;
a success increments `successful`. -/
def perform_backup (outcome : String → Except String Unit) (targets : List String) :
    Nat × List String :=
  targets.foldl (fun acc t =>
    match outcome t with
    | .ok _ => (acc.1 + 1, acc.2)
    | .error e => (acc.1, acc.2 ++ [e])) (0, [])

/-- Whether a per-target outcome succeeded (its `try` body ran to completion). -/
def exceptOk : Except String Unit → Bool
  | .ok _ => true
  | .error _ => false

/-- The failure string a failed per-target outcome appends to `failed`. -/
def exceptErrMsg : Except String Unit → Option String
  | .ok _ => none
  | .error e => some e

/-- The remote store's files, as the set of normalized relative paths (under
the upload root) that currently name regular files; directories exist exactly
where some file path passes through them. -/
def fsIsFile (fs : List String) (p : String) : Bool :=
  fs.contains p

/-- A path names a directory when some stored file lies strictly below it. -/
def fsIsDir (fs : List String) (p : String) : Bool :=
  fs.any (fun q => (p.data ++ ['/']).isPrefixOf q.data)

/-- `os.path.exists` inside the upload root. -/
def fsExists (fs : List String) (p : String) : Bool :=
  fsIsFile fs p || fsIsDir fs p

/-- `os.remove p`: the file no longer exists afterwards. -/
def fsRemove (fs : List String) (p : String) : List String :=
  fs.filter (fun q => decide (q ≠ p))

/-- Host `app.py` `delete_file_by_path` (lines 292-337), `DELETE /file`:
400 when the `path` query parameter is missing or empty; a `ValueError` from
the resolver is caught by the generic handler and reported as 500; 404 when
the resolved target does not exist; 400 when it exists but is not a regular
file; otherwise the file is removed and 200 returned.  The reply and the
resulting file set are both modelled. -/
def delete_file_by_path (base : String) (fs : List String) (path : Option String) :
    HttpReply × List String :=
  match path with
  | none => ({ status := 400, success := false }, fs)
  | some rp =>
      if rp = "" then ({ status := 400, success := false }, fs)
      else
        match resolve_path_under_upload base (some rp) with
        | .error _ => ({ status := 500, success := false }, fs)
        | .ok (_, norm) =>
            if fsExists fs norm = false then ({ status := 404, success := false }, fs)
            else if fsIsFile fs norm = false then ({ status := 400, success := false }, fs)
            else ({ status := 200, success := true }, fsRemove fs norm)

/-- JSON values, as Python's `json.loads` produces them: `True`/`False` decode
to Python booleans, which `isinstance(-, int)` also accepts. -/
inductive Json where
  | null : Json
  | bool (b : Bool) : Json
  | num (n : Int) : Json
  | str (s : String) : Json
  | arr (items : List Json) : Json
  | obj (fields : List (String × Json)) : Json

/-- Python `isinstance(v, str)` on an optional dict value, returning the string. -/
def pyStr : Option Json → Option String
  | some (.str s) => some s
  | _ => none

/-- Python `isinstance(v, int)` on an optional dict value, returning the
integer value.  `bool` is a subtype of `int` in Python, so `True`/`False` pass
the check with values 1/0; everything else (missing field, `None`, strings,
floats, containers) fails it. -/
def pyInt : Option Json → Option Int
  | some (.num n) => some n
  | some (.bool b) => some (if b then 1 else 0)
  | _ => none

/-- Whether a JSON value is an object (a Python dict). -/
def isObj : Json → Bool
  | .obj _ => true
  | _ => false

/-- Whether a listing entry contributes the key `p` to the remote snapshot:
it is an object whose `path` field is the string `p` and whose `size` field
passes `isinstance(-, int)`. -/
def entryYields (j : Json) (p : String) : Bool :=
  match j with
  | .obj kvs => (pyStr (dlookup kvs "path") == some p) && (pyInt (dlookup kvs "size")).isSome
  | _ => false

/-- The snapshot-building loop of client `app.py`
`list_remote_directory_files` (lines 512-517): for each entry of the `files`
array, `p = item.get('path')`, `s = item.get('size')`, and `out[p] = s` exactly
when `isinstance(p, str) and isinstance(s, int)`.  `item.get` on a non-dict
entry raises `AttributeError`, which propagates out of the call. -/
def buildRemoteSnapshot : List Json → List (String × Int) → Except String (List (String × Int))
  | [], out => .ok out
  | .obj kvs :: rest, out =>
      match pyStr (dlookup kvs "path"), pyInt (dlookup kvs "size") with
      | some p, some s => buildRemoteSnapshot rest (dinsert out p s)
      | some _, none => buildRemoteSnapshot rest out
      | none, _ => buildRemoteSnapshot rest out
  | _ :: _, _ => .error "AttributeError"

/-- Whether `p` is a key of the snapshot a build result carries (`False` when
the build raised). -/
def buildHasKey (r : Except String (List (String × Int))) (p : String) : Prop :=
  match r with
  | .ok snap => dlookup snap p ≠ none
  | .error _ => False

/-- Client `app.py` `load_file_paths` (lines 303-329) on successfully parsed
JSON `data`: a list whose first element is a dict is taken as the structured
format and stored unchanged; any other list is the legacy format, and each
element becomes `{'path': element, 'last_backup': None, 'added_date': now}`;
a non-list leaves the previously held `file_data` untouched. -/
def load_file_paths (previous : List Json) (now : String) (data : Json) : List Json :=
  match data with
  | .arr items =>
      match items with
      | .obj kvs :: rest => .obj kvs :: rest
      | _ =>
          items.map (fun j =>
            Json.obj [("path", j), ("last_backup", Json.null), ("added_date", Json.str now)])
  | _ => previous

theorem dlookup_dremove {α : Type} (m : List (String × α)) (k p : String) :
    dlookup (dremove m k) p = if p = k then none else dlookup m p := by
  induction m with
  | nil => simp [dremove, dlookup]
  | cons e rest ih =>
      cases e with
      | mk k' v =>
          by_cases hk : k' = k
          · by_cases hp : p = k
            · subst hp
              simp [dremove, dlookup, hk, ih]
            · have hpk' : p ≠ k' := by rw [hk]; exact hp
              simp [dremove, dlookup, hk, hp, hpk', ih]
          · by_cases hp : p = k'
            · have hpk : p ≠ k := by rw [hp]; exact hk
              simp [dremove, dlookup, hk, hp, hpk]
            · simp [dremove, dlookup, hk, hp, ih]

theorem dlookup_dinsert {α : Type} (m : List (String × α)) (k p : String) (v : α) :
    dlookup (dinsert m k v) p = if p = k then some v else dlookup m p := by
  by_cases h : p = k
  · simp [dinsert, dlookup, h]
  · simp only [dinsert, dlookup, if_neg h]
    rw [dlookup_dremove, if_neg h]

theorem dlookup_mem {α : Type} {m : List (String × α)} {p : String} {v : α}
    (h : dlookup m p = some v) : (p, v) ∈ m := by
  induction m with
  | nil => simp [dlookup] at h
  | cons e rest ih =>
      cases e with
      | mk k w =>
          by_cases hpk : p = k
          · subst hpk
            simp [dlookup] at h
            subst h
            exact List.mem_cons_self _ _
          · simp [dlookup, hpk] at h
            exact List.mem_cons_of_mem _ (ih h)

theorem dlookup_isSome_of_mem {α : Type} {m : List (String × α)} {p : String} {v : α}
    (h : (p, v) ∈ m) : ∃ w, dlookup m p = some w := by
  induction m with
  | nil => simp at h
  | cons e rest ih =>
      cases e with
      | mk k w =>
          by_cases hpk : p = k
          · exact ⟨w, by simp [dlookup, hpk]⟩
          · rcases List.mem_cons.mp h with h1 | h2
            · exact absurd (congrArg Prod.fst h1) hpk
            · rcases ih h2 with ⟨w', hw'⟩
              exact ⟨w', by simp [dlookup, hpk, hw']⟩

theorem dlookup_eq_of_mem_nodup {α : Type} {m : List (String × α)} {p : String} {v : α}
    (hn : KeysNodup m) (h : (p, v) ∈ m) : dlookup m p = some v := by
  induction m with
  | nil => simp at h
  | cons e rest ih =>
      cases e with
      | mk k w =>
          have hn' : KeysNodup rest := (List.nodup_cons.mp hn).2
          rcases List.mem_cons.mp h with h1 | h2
          · cases h1
            simp [dlookup]
          · have hpk : p ≠ k := by
              intro hc
              subst hc
              exact (List.nodup_cons.mp hn).1 (List.mem_map.mpr ⟨(p, v), h2, rfl⟩)
            simp [dlookup, hpk, ih hn' h2]

theorem dlookup_none_iff {α : Type} (m : List (String × α)) (p : String) :
    dlookup m p = none ↔ p ∉ m.map Prod.fst := by
  constructor
  · intro h hmem
    rcases List.mem_map.mp hmem with ⟨e, he, hfst⟩
    rcases dlookup_isSome_of_mem (m := m) (p := p) (v := e.2) (by
      have : e = (p, e.2) := by rw [← hfst]
      rw [← this]; exact he) with ⟨w, hw⟩
    rw [h] at hw
    exact Option.noConfusion hw
  · intro h
    cases hl : dlookup m p with
    | none => rfl
    | some v =>
        exact absurd (List.mem_map.mpr ⟨(p, v), dlookup_mem hl, rfl⟩) h

theorem mem_to_upload {lf rf : List (String × Int)} (hn : KeysNodup lf) (p : String) :
    p ∈ to_upload lf rf ↔ ∃ sz, dlookup lf p = some sz ∧ dlookup rf p ≠ some sz := by
  constructor
  · intro h
    rcases List.mem_map.mp h with ⟨e, he, hfst⟩
    rcases List.mem_filter.mp he with ⟨hmem, hcond⟩
    subst hfst
    refine ⟨e.2, dlookup_eq_of_mem_nodup hn (by simpa using hmem), ?_⟩
    rcases Bool.or_eq_true_iff.mp hcond with h1 | h2
    · intro hc
      rw [of_decide_eq_true h1] at hc
      exact Option.noConfusion hc
    · exact of_decide_eq_true h2
  · rintro ⟨sz, hl, hr⟩
    refine List.mem_map.mpr ⟨(p, sz), List.mem_filter.mpr ⟨dlookup_mem hl, ?_⟩, rfl⟩
    exact Bool.or_eq_true_iff.mpr (Or.inr (decide_eq_true hr))

theorem mem_to_delete {lf rf : List (String × Int)} (p : String) :
    p ∈ to_delete lf rf ↔ dlookup rf p ≠ none ∧ dlookup lf p = none := by
  constructor
  · intro h
    rcases List.mem_filter.mp h with ⟨hmem, hcond⟩
    refine ⟨?_, of_decide_eq_true hcond⟩
    intro hc
    exact (dlookup_none_iff rf p).mp hc hmem
  · rintro ⟨hr, hl⟩
    refine List.mem_filter.mpr ⟨?_, decide_eq_true hl⟩
    by_contra hmem
    exact hr ((dlookup_none_iff rf p).mpr hmem)

theorem dlookup_foldl_upload_not_mem (lf : List (String × Int)) (ks : List String)
    (m : List (String × Int)) (p : String) (h : p ∉ ks) :
    dlookup (ks.foldl (uploadStep lf) m) p = dlookup m p := by
  induction ks generalizing m with
  | nil => rfl
  | cons k rest ih =>
      have hpk : p ≠ k := fun hc => h (hc ▸ List.mem_cons_self k rest)
      have hrest : p ∉ rest := fun hc => h (List.mem_cons_of_mem k hc)
      rw [List.foldl_cons, ih _ hrest]
      unfold uploadStep
      cases dlookup lf k with
      | none => rfl
      | some v => rw [dlookup_dinsert, if_neg hpk]

theorem dlookup_foldl_upload_mem (lf : List (String × Int)) (ks : List String)
    (m : List (String × Int)) (p : String) (hp : p ∈ ks) {v : Int}
    (hv : dlookup lf p = some v) :
    dlookup (ks.foldl (uploadStep lf) m) p = some v := by
  induction ks generalizing m with
  | nil => simp at hp
  | cons k rest ih =>
      rw [List.foldl_cons]
      by_cases hrest : p ∈ rest
      · exact ih _ hrest
      · have hpk : p = k := by
          rcases List.mem_cons.mp hp with h1 | h2
          · exact h1
          · exact absurd h2 hrest
        subst hpk
        rw [dlookup_foldl_upload_not_mem lf rest _ p hrest]
        unfold uploadStep
        rw [hv, dlookup_dinsert, if_pos rfl]

theorem dlookup_foldl_dremove_not_mem (ks : List String) (m : List (String × Int))
    (p : String) (h : p ∉ ks) :
    dlookup (ks.foldl (fun m q => dremove m q) m) p = dlookup m p := by
  induction ks generalizing m with
  | nil => rfl
  | cons k rest ih =>
      have hpk : p ≠ k := fun hc => h (hc ▸ List.mem_cons_self k rest)
      have hrest : p ∉ rest := fun hc => h (List.mem_cons_of_mem k hc)
      rw [List.foldl_cons, ih _ hrest, dlookup_dremove, if_neg hpk]

theorem dlookup_foldl_dremove_mem (ks : List String) (m : List (String × Int))
    (p : String) (hp : p ∈ ks) :
    dlookup (ks.foldl (fun m q => dremove m q) m) p = none := by
  induction ks generalizing m with
  | nil => simp at hp
  | cons k rest ih =>
      rw [List.foldl_cons]
      by_cases hrest : p ∈ rest
      · exact ih _ hrest
      · have hpk : p = k := by
          rcases List.mem_cons.mp hp with h1 | h2
          · exact h1
          · exact absurd h2 hrest
        subst hpk
        rw [dlookup_foldl_dremove_not_mem rest _ p hrest, dlookup_dremove, if_pos rfl]

theorem dlookup_applyPlan {lf rf : List (String × Int)} (hl : KeysNodup lf)
    (p : String) : dlookup (applyPlan lf rf) p = dlookup lf p := by
  unfold applyPlan
  cases h : dlookup lf p with
  | some sz =>
      have hnd : p ∉ to_delete lf rf := by
        intro hc
        rcases (mem_to_delete p).mp hc with ⟨_, hnone⟩
        rw [h] at hnone
        exact Option.noConfusion hnone
      rw [dlookup_foldl_dremove_not_mem _ _ _ hnd]
      by_cases heq : dlookup rf p = some sz
      · have hnu : p ∉ to_upload lf rf := by
          intro hc
          rcases (mem_to_upload hl p).mp hc with ⟨sz', hl', hr'⟩
          rw [h] at hl'
          cases hl'
          exact hr' heq
        rw [dlookup_foldl_upload_not_mem _ _ _ _ hnu, heq]
      · have hu : p ∈ to_upload lf rf := (mem_to_upload hl p).mpr ⟨sz, h, heq⟩
        exact dlookup_foldl_upload_mem lf _ _ p hu h
  | none =>
      have hnu : p ∉ to_upload lf rf := by
        intro hc
        rcases (mem_to_upload hl p).mp hc with ⟨sz', hl', _⟩
        rw [h] at hl'
        exact Option.noConfusion hl'
      cases hr : dlookup rf p with
      | some w =>
          have hd : p ∈ to_delete lf rf :=
            (mem_to_delete p).mpr ⟨by rw [hr]; exact fun hc => Option.noConfusion hc, h⟩
          exact dlookup_foldl_dremove_mem _ _ _ hd
      | none =>
          have hnd : p ∉ to_delete lf rf := by
            intro hc
            rcases (mem_to_delete p).mp hc with ⟨hne, _⟩
            exact hne hr
          rw [dlookup_foldl_dremove_not_mem _ _ _ hnd,
            dlookup_foldl_upload_not_mem _ _ _ _ hnu, hr]

theorem to_upload_applyPlan_nil {lf rf : List (String × Int)} (hl : KeysNodup lf) :
    to_upload lf (applyPlan lf rf) = [] := by
  unfold to_upload
  rw [List.map_eq_nil_iff, List.filter_eq_nil_iff]
  rintro ⟨q, w⟩ he
  have hle : dlookup lf q = some w := dlookup_eq_of_mem_nodup hl he
  have happ : dlookup (applyPlan lf rf) q = some w := by
    rw [dlookup_applyPlan hl, hle]
  simp [happ, hle]

theorem to_delete_applyPlan_nil {lf rf : List (String × Int)} (hl : KeysNodup lf) :
    to_delete lf (applyPlan lf rf) = [] := by
  unfold to_delete
  rw [List.filter_eq_nil_iff]
  intro p hp
  rcases List.mem_map.mp hp with ⟨e, he, hfst⟩
  rcases e with ⟨q, w⟩
  cases hfst
  rcases dlookup_isSome_of_mem he with ⟨w', hw'⟩
  have hq : dlookup lf q = some w' := by rw [← dlookup_applyPlan hl q]; exact hw'
  simp [hq]

theorem runPhase_all_ok (ok : String → Bool) (l : List String)
    (h : ∀ x ∈ l, ok x = true) : runPhase ok l = (l, l, true) := by
  induction l with
  | nil => rfl
  | cons p ps ih =>
      have hp : ok p = true := h p (List.mem_cons_self p ps)
      have hps : ∀ x ∈ ps, ok x = true := fun x hx => h x (List.mem_cons_of_mem p hx)
      simp [runPhase, hp, ih hps]

theorem runPhase_first_fail (ok : String → Bool) (xs : List String) (b : String)
    (ys : List String) (hxs : ∀ x ∈ xs, ok x = true) (hb : ok b = false) :
    runPhase ok (xs ++ b :: ys) = (xs ++ [b], xs, false) := by
  induction xs with
  | nil => simp [runPhase, hb]
  | cons p ps ih =>
      have hp : ok p = true := hxs p (List.mem_cons_self p ps)
      have hps : ∀ x ∈ ps, ok x = true := fun x hx => hxs x (List.mem_cons_of_mem p hx)
      simp [runPhase, hp, ih hps]

theorem runPhase_done (ok : String → Bool) (l : List String)
    (h : (runPhase ok l).2.2 = true) :
    (runPhase ok l).1 = l ∧ (runPhase ok l).2.1 = l := by
  induction l with
  | nil => exact ⟨rfl, rfl⟩
  | cons p ps ih =>
      by_cases hp : ok p = true
      · simp only [runPhase, hp, if_pos] at h ⊢
        rcases ih h with ⟨h1, h2⟩
        simp [h1, h2]
      · simp [runPhase, hp] at h

theorem runPhase_applied_subset (ok : String → Bool) (l : List String) :
    ∀ x ∈ (runPhase ok l).2.1, x ∈ l := by
  induction l with
  | nil => intro x hx; simp [runPhase] at hx
  | cons p ps ih =>
      intro x hx
      by_cases hp : ok p = true
      · simp only [runPhase, hp, if_pos] at hx
        rcases List.mem_cons.mp hx with h1 | h2
        · exact h1 ▸ List.mem_cons_self p ps
        · exact List.mem_cons_of_mem p (ih x h2)
      · simp [runPhase, hp] at hx

theorem to_upload_key_isSome {lf rf : List (String × Int)} {p : String}
    (h : p ∈ to_upload lf rf) : ∃ v, dlookup lf p = some v := by
  rcases List.mem_map.mp h with ⟨e, he, hfst⟩
  rcases e with ⟨q, w⟩
  cases hfst
  exact dlookup_isSome_of_mem (List.mem_filter.mp he).1

theorem to_delete_key_none {lf rf : List (String × Int)} {p : String}
    (h : p ∈ to_delete lf rf) : dlookup lf p = none :=
  of_decide_eq_true (List.mem_filter.mp h).2

theorem applyReqs_upload_map (lf : List (String × Int)) (us : List String)
    (rf : List (String × Int)) :
    applyReqs lf (us.map Req.upload) rf = us.foldl (uploadStep lf) rf := by
  unfold applyReqs
  rw [List.foldl_map]

theorem applyReqs_append (lf : List (String × Int)) (rs₁ rs₂ : List Req)
    (rf : List (String × Int)) :
    applyReqs lf (rs₁ ++ rs₂) rf = applyReqs lf rs₂ (applyReqs lf rs₁ rf) := by
  unfold applyReqs
  rw [List.foldl_append]

theorem applyReqs_delete_map (lf : List (String × Int)) (ds : List String)
    (rf : List (String × Int)) :
    applyReqs lf (ds.map Req.delete) rf = ds.foldl (fun m q => dremove m q) rf := by
  unfold applyReqs
  rw [List.foldl_map]

theorem applied_upload_persists (okU okD : String → Bool) (lf rf : List (String × Int))
    (p : String) (hp : Req.upload p ∈ (sync_directory okU okD lf rf).applied) :
    dlookup (applyReqs lf (sync_directory okU okD lf rf).applied rf) p = dlookup lf p := by
  unfold sync_directory at hp ⊢
  by_cases hdone : (runPhase okU (to_upload lf rf)).2.2 = true
  · simp only [hdone, if_pos] at hp ⊢
    set uApp := (runPhase okU (to_upload lf rf)).2.1 with huApp
    set dApp := (runPhase okD (to_delete lf rf)).2.1 with hdApp
    have hpu : p ∈ uApp := by
      rcases List.mem_append.mp hp with h1 | h2
      · rcases List.mem_map.mp h1 with ⟨q, hq, hinj⟩
        cases hinj
        exact hq
      · rcases List.mem_map.mp h2 with ⟨q, _, hinj⟩
        exact absurd hinj (by intro hc; cases hc)
    rcases to_upload_key_isSome
        (runPhase_applied_subset okU (to_upload lf rf) p hpu) with ⟨v, hv⟩
    have hnd : p ∉ dApp := by
      intro hc
      have : dlookup lf p = none :=
        to_delete_key_none (runPhase_applied_subset okD (to_delete lf rf) p hc)
      rw [hv] at this
      exact Option.noConfusion this
    rw [applyReqs_append, applyReqs_upload_map, applyReqs_delete_map,
      dlookup_foldl_dremove_not_mem _ _ _ hnd,
      dlookup_foldl_upload_mem lf _ _ p hpu hv, hv]
  · simp only [hdone, if_neg, Bool.not_eq_true] at hp ⊢
    have hpu : p ∈ (runPhase okU (to_upload lf rf)).2.1 := by
      rcases List.mem_map.mp hp with ⟨q, hq, hinj⟩
      cases hinj
      exact hq
    rcases to_upload_key_isSome
        (runPhase_applied_subset okU (to_upload lf rf) p hpu) with ⟨v, hv⟩
    rw [applyReqs_upload_map, dlookup_foldl_upload_mem lf _ _ p hpu hv, hv]

theorem perform_backup_foldl (o : String → Except String Unit) (ts : List String)
    (n : Nat) (fs : List String) :
    ts.foldl (fun acc t =>
        match o t with
        | .ok _ => (acc.1 + 1, acc.2)
        | .error e => (acc.1, acc.2 ++ [e])) (n, fs) =
      (n + (ts.filter (fun t => exceptOk (o t))).length,
       fs ++ ts.filterMap (fun t => exceptErrMsg (o t))) := by
  induction ts generalizing n fs with
  | nil => simp
  | cons t ts' ih =>
      cases ho : o t with
      | ok u =>
          simp only [List.foldl_cons, ho, List.filter_cons, List.filterMap_cons]
          rw [ih]
          simp [exceptOk, exceptErrMsg, ho, Nat.add_comm, Nat.add_assoc, Nat.add_left_comm]
      | error e =>
          simp only [List.foldl_cons, ho, List.filter_cons, List.filterMap_cons]
          rw [ih]
          simp [exceptOk, exceptErrMsg, ho, List.append_assoc]

theorem buildRemoteSnapshot_spec (items : List Json) (out : List (String × Int))
    (h : items.all isObj = true) :
    ∃ snap, buildRemoteSnapshot items out = .ok snap ∧
      ∀ p, (dlookup snap p ≠ none ↔
        (∃ j ∈ items, entryYields j p = true) ∨ dlookup out p ≠ none) := by
  induction items generalizing out with
  | nil => exact ⟨out, rfl, fun p => by simp⟩
  | cons j rest ih =>
      have hj : isObj j = true := by
        have := List.all_eq_true.mp h j (List.mem_cons_self j rest)
        exact this
      have hrest : rest.all isObj = true :=
        List.all_eq_true.mpr fun x hx =>
          List.all_eq_true.mp h x (List.mem_cons_of_mem j hx)
      cases j with
      | obj kvs =>
          cases hps : pyStr (dlookup kvs "path") with
          | some q =>
              cases hpi : pyInt (dlookup kvs "size") with
              | some s =>
                  rcases ih (dinsert out q s) hrest with ⟨snap, hsnap, hiff⟩
                  refine ⟨snap, ?_, ?_⟩
                  · simp [buildRemoteSnapshot, hps, hpi, hsnap]
                  · intro p
                    rw [hiff p, dlookup_dinsert]
                    by_cases hpq : p = q
                    · subst hpq
                      simp only [if_pos rfl]
                      constructor
                      · intro _
                        exact Or.inl ⟨.obj kvs, List.mem_cons_self _ _, by
                          simp [entryYields, hps, hpi]⟩
                      · intro _
                        exact Or.inr (fun hc => Option.noConfusion hc)
                    · simp only [if_neg hpq]
                      constructor
                      · rintro (⟨j', hj', hy⟩ | h2)
                        · exact Or.inl ⟨j', List.mem_cons_of_mem _ hj', hy⟩
                        · exact Or.inr h2
                      · rintro (⟨j', hj', hy⟩ | h2)
                        · rcases List.mem_cons.mp hj' with rfl | hmem
                          · exfalso
                            simp [entryYields, hps] at hy
                            exact hpq hy.1.symm
                          · exact Or.inl ⟨j', hmem, hy⟩
                        · exact Or.inr h2
              | none =>
                  rcases ih out hrest with ⟨snap, hsnap, hiff⟩
                  refine ⟨snap, by simp [buildRemoteSnapshot, hps, hpi, hsnap], ?_⟩
                  intro p
                  rw [hiff p]
                  constructor
                  · rintro (h1 | h2)
                    · rcases h1 with ⟨j', hj', hy⟩
                      exact Or.inl ⟨j', List.mem_cons_of_mem _ hj', hy⟩
                    · exact Or.inr h2
                  · rintro (⟨j', hj', hy⟩ | h2)
                    · rcases List.mem_cons.mp hj' with rfl | hmem
                      · exfalso
                        simp [entryYields, hps, hpi] at hy
                      · exact Or.inl ⟨j', hmem, hy⟩
                    · exact Or.inr h2
          | none =>
              rcases ih out hrest with ⟨snap, hsnap, hiff⟩
              refine ⟨snap, by simp [buildRemoteSnapshot, hps, hsnap], ?_⟩
              intro p
              rw [hiff p]
              constructor
              · rintro (h1 | h2)
                · rcases h1 with ⟨j', hj', hy⟩
                  exact Or.inl ⟨j', List.mem_cons_of_mem _ hj', hy⟩
                · exact Or.inr h2
              · rintro (⟨j', hj', hy⟩ | h2)
                · rcases List.mem_cons.mp hj' with rfl | hmem
                  · exfalso
                    simp [entryYields, hps] at hy
                  · exact Or.inl ⟨j', hmem, hy⟩
                · exact Or.inr h2
      | null => simp [isObj] at hj
      | bool b => simp [isObj] at hj
      | num n => simp [isObj] at hj
      | str s => simp [isObj] at hj
      | arr a => simp [isObj] at hj

/-- C1: for every local and remote snapshot, the plan computed by directory
sync satisfies `upload = { p ∈ local | p ∉ remote ∨ remote[p] ≠ local[p] }`
and `delete = { p ∈ remote | p ∉ local }`. -/
theorem sync_plan_membership (lf rf : List (String × Int)) (hl : KeysNodup lf)
    (p : String) :
    (p ∈ to_upload lf rf ↔ ∃ sz, dlookup lf p = some sz ∧ dlookup rf p ≠ some sz) ∧
    (p ∈ to_delete lf rf ↔ dlookup rf p ≠ none ∧ dlookup lf p = none) :=
  ⟨mem_to_upload hl p, mem_to_delete p⟩

/-- Witness for C1 at the spec's diff example `local = {a:10, b:20}`,
`remote = {b:99, c:5}`. -/
theorem sync_plan_membership_example :
    ("a" ∈ to_upload [("a", (10 : Int)), ("b", 20)] [("b", (99 : Int)), ("c", 5)] ↔
      ∃ sz, dlookup [("a", (10 : Int)), ("b", 20)] "a" = some sz ∧
        dlookup [("b", (99 : Int)), ("c", 5)] "a" ≠ some sz) ∧
    ("c" ∈ to_delete [("a", (10 : Int)), ("b", 20)] [("b", (99 : Int)), ("c", 5)] ↔
      dlookup [("b", (99 : Int)), ("c", 5)] "c" ≠ none ∧
        dlookup [("a", (10 : Int)), ("b", 20)] "c" = none) :=
  ⟨(sync_plan_membership [("a", 10), ("b", 20)] [("b", 99), ("c", 5)] (by decide) "a").1,
   (sync_plan_membership [("a", 10), ("b", 20)] [("b", 99), ("c", 5)] (by decide) "c").2⟩

/-- C3: applying the computed plan to the remote snapshot (each upload path set
to its local size, each delete path removed) yields the local snapshot, and a
second plan computed against the updated remote has empty upload and delete
sets. -/
theorem sync_plan_idempotent_convergence (lf rf : List (String × Int))
    (hl : KeysNodup lf) :
    (∀ p, dlookup (applyPlan lf rf) p = dlookup lf p) ∧
    to_upload lf (applyPlan lf rf) = [] ∧
    to_delete lf (applyPlan lf rf) = [] :=
  ⟨dlookup_applyPlan hl, to_upload_applyPlan_nil hl, to_delete_applyPlan_nil hl⟩

/-- Witness for C3 at the spec's end-to-end example
`local = {a.txt:10, sub/b.txt:20}`, `remote = {a.txt:10, old.txt:5}`. -/
theorem sync_plan_idempotent_convergence_example :
    dlookup (applyPlan [("a.txt", (10 : Int)), ("sub/b.txt", 20)]
        [("a.txt", (10 : Int)), ("old.txt", 5)]) "old.txt" =
      dlookup [("a.txt", (10 : Int)), ("sub/b.txt", 20)] "old.txt" ∧
    to_upload [("a.txt", (10 : Int)), ("sub/b.txt", 20)]
        (applyPlan [("a.txt", (10 : Int)), ("sub/b.txt", 20)]
          [("a.txt", (10 : Int)), ("old.txt", 5)]) = [] ∧
    to_delete [("a.txt", (10 : Int)), ("sub/b.txt", 20)]
        (applyPlan [("a.txt", (10 : Int)), ("sub/b.txt", 20)]
          [("a.txt", (10 : Int)), ("old.txt", 5)]) = [] :=
  ⟨(sync_plan_idempotent_convergence [("a.txt", 10), ("sub/b.txt", 20)]
      [("a.txt", 10), ("old.txt", 5)] (by decide)).1 "old.txt",
   (sync_plan_idempotent_convergence [("a.txt", 10), ("sub/b.txt", 20)]
      [("a.txt", 10), ("old.txt", 5)] (by decide)).2.1,
   (sync_plan_idempotent_convergence [("a.txt", 10), ("sub/b.txt", 20)]
      [("a.txt", 10), ("old.txt", 5)] (by decide)).2.2⟩

/-- C8: the persisted-tracking-list loader upgrades a legacy JSON array of bare
path strings to structured records with the same paths and `last_backup = null`,
losing no entries, and loads a structured array (first element a dict)
unchanged. -/
theorem load_file_paths_formats :
    (∀ (previous : List Json) (now : String) (ps : List String),
        load_file_paths previous now (.arr (ps.map Json.str)) =
          ps.map (fun p => Json.obj
            [("path", Json.str p), ("last_backup", Json.null),
             ("added_date", Json.str now)])) ∧
    (∀ (previous : List Json) (now : String) (kvs : List (String × Json))
        (rest : List Json),
        load_file_paths previous now (.arr (.obj kvs :: rest)) = .obj kvs :: rest) := by
  constructor
  · intro previous now ps
    cases ps with
    | nil => rfl
    | cons p ps' => simp [load_file_paths]
  · intro previous now kvs rest
    rfl

/-- C10: the remote directory name for a local directory is exactly the
basename of the normalized local path, with the literal fallback `"dir"` when
that basename is empty (e.g. at a filesystem root). -/
theorem remote_dir_name_spec :
    (∀ local_dir : String,
        _remote_dir_name local_dir =
          if basenameL (normpathL local_dir.data) = [] then "dir"
          else ⟨basenameL (normpathL local_dir.data)⟩) ∧
    _remote_dir_name "/" = "dir" ∧
    _remote_dir_name "/home/pi/photos/" = "photos" ∧
    _remote_dir_name "a/b" = "b" := by
  refine ⟨?_, rfl, rfl, rfl⟩
  intro d
  unfold _remote_dir_name
  by_cases hb : basenameL (normpathL d.data) = []
  · rw [if_pos hb, hb]
    rfl
  · rw [if_neg hb, if_neg]
    intro hc
    exact hb (congrArg String.data hc)

theorem resolve_some (base rp : String) :
    resolve_path_under_upload base (some rp) =
      if normRejected rp then .error "invalid relative path"
      else if escapesRoot base rp then .error "path escapes upload folder"
      else .ok (⟨resolvedFull base rp⟩, ⟨backslashToSlash (clientNorm rp)⟩) :=
  rfl

/-- C2 counterexample: the claim states `resolve(root, "/etc/passwd")` fails
with `InvalidPath`, but the resolver strips leading slashes before
normalizing, so the call succeeds and resolves to `root/etc/passwd`. -/
theorem resolve_accepts_absolute_input :
    resolve_path_under_upload "/srv/backup" (some "/etc/passwd") =
      .ok ("/srv/backup/etc/passwd", "etc/passwd") := by
  rfl

/-- C2 as amended: the resolver fails with `InvalidPath` when the input
normalizes to `""`/`"."`, begins with a parent-directory segment, or is
absolute after the leading-slash strip, and rejects any canonicalized result
not lying inside the root; a successful result always lies at or under the
root; `"../../etc/passwd"`, `"a/../../b"` and `""` are rejected while
`"a/b/c.txt"` succeeds under the root and `\` separators are accepted — but an
absolute input such as `"/etc/passwd"` has its leading slashes stripped and is
resolved as a relative path inside the root rather than rejected. -/
theorem resolve_path_safety_amended :
    (∀ base rp, normRejected rp →
        resolve_path_under_upload base (some rp) = .error "invalid relative path") ∧
    (∀ base rp, ¬ normRejected rp → escapesRoot base rp →
        resolve_path_under_upload base (some rp) = .error "path escapes upload folder") ∧
    (∀ base rp full norm,
        resolve_path_under_upload base (some rp) = .ok (full, norm) →
        full.data = realpathL base.data ∨
          (realpathL base.data ++ ['/']).isPrefixOf full.data = true) ∧
    resolve_path_under_upload "/srv/backup" (some "") = .error "invalid relative path" ∧
    resolve_path_under_upload "/srv/backup" (some "../../etc/passwd") =
      .error "invalid relative path" ∧
    resolve_path_under_upload "/srv/backup" (some "a/../../b") =
      .error "invalid relative path" ∧
    resolve_path_under_upload "/srv/backup" (some "/etc/passwd") =
      .ok ("/srv/backup/etc/passwd", "etc/passwd") ∧
    resolve_path_under_upload "/srv/backup" (some "a/b/c.txt") =
      .ok ("/srv/backup/a/b/c.txt", "a/b/c.txt") ∧
    resolve_path_under_upload "/srv/backup" (some "a\\b\\c.txt") =
      .ok ("/srv/backup/a/b/c.txt", "a/b/c.txt") := by
  refine ⟨?_, ?_, ?_, rfl, rfl, rfl, rfl, rfl, rfl⟩
  · intro base rp h
    rw [resolve_some, if_pos h]
  · intro base rp h1 h2
    rw [resolve_some, if_neg h1, if_pos h2]
  · intro base rp full norm h
    rw [resolve_some] at h
    by_cases h1 : normRejected rp
    · rw [if_pos h1] at h
      exact absurd h (by intro hc; cases hc)
    · rw [if_neg h1] at h
      by_cases h2 : escapesRoot base rp
      · rw [if_pos h2] at h
        exact absurd h (by intro hc; cases hc)
      · rw [if_neg h2] at h
        simp only [Except.ok.injEq, Prod.mk.injEq] at h
        have hfd : full.data = resolvedFull base rp := by rw [← h.1]
        unfold escapesRoot at h2
        rcases not_and_or.mp h2 with hA | hB
        · exact Or.inl (by rw [hfd]; exact not_not.mp hA)
        · exact Or.inr (by rw [hfd]; exact not_not.mp hB)

/-- Witness for C2's amended theorem, exercising each hypothesized clause at
concrete inputs: a rejected normalization, a canonicalized escape (root `"/"`,
where `base + os.sep` is `"//"`), and containment of a successful result. -/
theorem resolve_path_safety_amended_witness :
    resolve_path_under_upload "/x" (some ".") = .error "invalid relative path" ∧
    resolve_path_under_upload "/" (some "a") = .error "path escapes upload folder" ∧
    ((("/srv/backup/a/b/c.txt" : String)).data = realpathL ("/srv/backup" : String).data ∨
      (realpathL ("/srv/backup" : String).data ++ ['/']).isPrefixOf
        (("/srv/backup/a/b/c.txt" : String)).data = true) :=
  ⟨resolve_path_safety_amended.1 "/x" "." (by decide),
   resolve_path_safety_amended.2.1 "/" "a" (by decide) (by decide),
   resolve_path_safety_amended.2.2.1 "/srv/backup" "a/b/c.txt"
     "/srv/backup/a/b/c.txt" "a/b/c.txt" (by rfl)⟩

/-- C4: within a single `sync_directory` run, every item of the upload set is
issued before any delete request: a delete at position `i` of the issued trace
implies every upload-set path appears as an upload request at some earlier
position. -/
theorem sync_uploads_precede_deletes (okU okD : String → Bool)
    (lf rf : List (String × Int)) (i : Nat) (q : String)
    (hi : (sync_directory okU okD lf rf).issued[i]? = some (Req.delete q)) :
    ∀ p ∈ to_upload lf rf, ∃ j, j < i ∧
      (sync_directory okU okD lf rf).issued[j]? = some (Req.upload p) := by
  intro p hp
  unfold sync_directory at hi ⊢
  by_cases hdone : (runPhase okU (to_upload lf rf)).2.2 = true
  · simp only [hdone, if_pos] at hi ⊢
    rw [(runPhase_done okU _ hdone).1] at hi ⊢
    rcases List.mem_iff_getElem?.mp hp with ⟨k, hk⟩
    have hklen : k < (to_upload lf rf).length := by
      rcases List.getElem?_eq_some_iff.mp hk with ⟨hlt, _⟩
      exact hlt
    have hile : ((to_upload lf rf).map Req.upload).length ≤ i := by
      by_contra hlt
      push_neg at hlt
      rw [List.getElem?_append_left hlt, List.getElem?_map] at hi
      rcases Option.map_eq_some'.mp hi with ⟨x, _, hinj⟩
      cases hinj
    refine ⟨k, ?_, ?_⟩
    · calc k < (to_upload lf rf).length := hklen
        _ = ((to_upload lf rf).map Req.upload).length := (List.length_map _ _).symm
        _ ≤ i := hile
    · rw [List.getElem?_append_left (by rw [List.length_map]; exact hklen),
        List.getElem?_map, hk]
      rfl
  · exfalso
    simp only [hdone, if_neg, Bool.not_eq_true] at hi
    rw [List.getElem?_map] at hi
    rcases Option.map_eq_some'.mp hi with ⟨x, _, hinj⟩
    cases hinj

/-- Witness for C4 with `local = {a:1}`, `remote = {b:2}` and an all-succeeding
transport: the issued trace is `[upload a, delete b]` and the delete at
position 1 is preceded by the upload of `a`. -/
theorem sync_uploads_precede_deletes_witness :
    ∃ j, j < 1 ∧
      (sync_directory (fun _ => true) (fun _ => true)
        [("a", (1 : Int))] [("b", (2 : Int))]).issued[j]? = some (Req.upload "a") :=
  sync_uploads_precede_deletes (fun _ => true) (fun _ => true)
    [("a", 1)] [("b", 2)] 1 "b" (by rfl) "a" (by decide)

theorem delete_some (base : String) (fs : List String) (rp : String) :
    delete_file_by_path base fs (some rp) =
      if rp = "" then ({ status := 400, success := false }, fs)
      else
        match resolve_path_under_upload base (some rp) with
        | .error _ => ({ status := 500, success := false }, fs)
        | .ok (_, norm) =>
            if fsExists fs norm = false then ({ status := 404, success := false }, fs)
            else if fsIsFile fs norm = false then ({ status := 400, success := false }, fs)
            else ({ status := 200, success := true }, fsRemove fs norm) :=
  rfl

theorem sync_directory_eq (okU okD : String → Bool) (lf rf : List (String × Int)) :
    sync_directory okU okD lf rf =
      if (runPhase okU (to_upload lf rf)).2.2 = true then
        { issued := (runPhase okU (to_upload lf rf)).1.map Req.upload ++
            (runPhase okD (to_delete lf rf)).1.map Req.delete
          applied := (runPhase okU (to_upload lf rf)).2.1.map Req.upload ++
            (runPhase okD (to_delete lf rf)).2.1.map Req.delete
          result := if (runPhase okD (to_delete lf rf)).2.2 = true then
              some ((runPhase okU (to_upload lf rf)).2.1.length,
                (runPhase okD (to_delete lf rf)).2.1.length)
            else none }
      else
        { issued := (runPhase okU (to_upload lf rf)).1.map Req.upload
          applied := (runPhase okU (to_upload lf rf)).2.1.map Req.upload
          result := none } :=
  rfl

theorem fsIsFile_fsRemove (fs : List String) (p : String) :
    fsIsFile (fsRemove fs p) p = false := by
  unfold fsIsFile fsRemove
  rw [Bool.eq_false_iff]
  intro hc
  rcases List.contains_iff_exists_mem_beq.mp hc with ⟨q, hq, hbeq⟩
  have hqp : p = q := beq_iff_eq.mp hbeq
  subst hqp
  simp at hq

theorem fsIsDir_fsRemove (fs : List String) (p x : String)
    (h : fsIsDir fs x = false) : fsIsDir (fsRemove fs p) x = false := by
  unfold fsIsDir fsRemove
  rw [Bool.eq_false_iff]
  intro hc
  rcases List.any_eq_true.mp hc with ⟨q, hq, hpre⟩
  have hqf : q ∈ fs := (List.mem_filter.mp hq).1
  have : fs.any (fun q => (x.data ++ ['/']).isPrefixOf q.data) = true :=
    List.any_eq_true.mpr ⟨q, hqf, hpre⟩
  rw [fsIsDir] at h
  rw [h] at this
  exact Bool.noConfusion this

/-- C5: the first upload or delete item whose transport call fails makes the
exception propagate out of `sync_directory`, aborting every remaining plan
item (the issued trace ends at the failing item and no counts are returned);
an upload transport call fails exactly on a non-2xx status or an unsuccessful
JSON payload; per-item error
containment exists only in the legacy single-file loop of `perform_backup`,
which records every failing target's error string and still processes every
remaining target. -/
theorem sync_abort_vs_legacy_containment :
    (∀ (okU okD : String → Bool) (lf rf : List (String × Int)) xs b ys,
        to_upload lf rf = xs ++ b :: ys → (∀ x ∈ xs, okU x = true) → okU b = false →
        (sync_directory okU okD lf rf).result = none ∧
        (sync_directory okU okD lf rf).issued = xs.map Req.upload ++ [Req.upload b]) ∧
    (∀ (okU okD : String → Bool) (lf rf : List (String × Int)) xs b ys,
        to_delete lf rf = xs ++ b :: ys → (∀ x ∈ to_upload lf rf, okU x = true) →
        (∀ x ∈ xs, okD x = true) → okD b = false →
        (sync_directory okU okD lf rf).result = none ∧
        (sync_directory okU okD lf rf).issued =
          (to_upload lf rf).map Req.upload ++ (xs.map Req.delete ++ [Req.delete b])) ∧
    (∀ resp : HttpReply, (∃ e, upload_directory_file_check resp = .error e) ↔
        (resp.status ≠ 200 ∨ resp.success = false)) ∧
    (∀ (outcome : String → Except String Unit) (targets : List String),
        perform_backup outcome targets =
          ((targets.filter (fun t => exceptOk (outcome t))).length,
           targets.filterMap (fun t => exceptErrMsg (outcome t)))) := by
  refine ⟨?_, ?_, ?_, ?_⟩
  · intro okU okD lf rf xs b ys hplan hxs hb
    have hrun : runPhase okU (to_upload lf rf) = (xs ++ [b], xs, false) := by
      rw [hplan]
      exact runPhase_first_fail okU xs b ys hxs hb
    constructor
    · rw [sync_directory_eq, hrun]
      simp
    · rw [sync_directory_eq, hrun]
      simp
  · intro okU okD lf rf xs b ys hplan hup hxs hb
    have hrunU : runPhase okU (to_upload lf rf) =
        (to_upload lf rf, to_upload lf rf, true) := runPhase_all_ok okU _ hup
    have hrunD : runPhase okD (to_delete lf rf) = (xs ++ [b], xs, false) := by
      rw [hplan]
      exact runPhase_first_fail okD xs b ys hxs hb
    constructor
    · rw [sync_directory_eq, hrunU, hrunD]
      simp
    · rw [sync_directory_eq, hrunU, hrunD]
      simp
  · intro resp
    unfold upload_directory_file_check
    by_cases h1 : resp.status = 200
    · by_cases h2 : resp.success = false
      · simp [h1, h2]
      · simp [h1, h2]
    · simp [h1]
  · intro outcome targets
    unfold perform_backup
    rw [perform_backup_foldl]
    simp

/-- Witness for C5: with `local = {a:1, b:2}`, empty remote, and a transport
succeeding only on `a`, the sync aborts after issuing `upload a, upload b`
with no counts returned; and the legacy loop over two targets with one failure
still reports one success and one recorded failure string. -/
theorem sync_abort_vs_legacy_containment_witness :
    ((sync_directory (fun s => s = "a") (fun _ => true)
        [("a", (1 : Int)), ("b", 2)] []).result = none ∧
     (sync_directory (fun s => s = "a") (fun _ => true)
        [("a", (1 : Int)), ("b", 2)] []).issued =
       ["a"].map Req.upload ++ [Req.upload "b"]) ∧
    perform_backup
        (fun t => if t = "x" then .ok () else .error "Network error") ["x", "y"] =
      ((["x", "y"].filter (fun t =>
          exceptOk (if t = "x" then .ok () else .error "Network error"))).length,
       ["x", "y"].filterMap (fun t =>
          exceptErrMsg (if t = "x" then .ok () else .error "Network error"))) :=
  ⟨sync_abort_vs_legacy_containment.1 (fun s => s = "a") (fun _ => true)
      [("a", 1), ("b", 2)] [] ["a"] "b" [] (by rfl)
      (by intro x hx; simp at hx; simp [hx]) (by decide),
   sync_abort_vs_legacy_containment.2.2.2
      (fun t => if t = "x" then .ok () else .error "Network error") ["x", "y"]⟩

/-- C6: `last_backup` is mutated only after a fully successful sync of the
target: a failure in scanning or remote listing leaves both the tracking store
and the remote untouched; an exception inside the plan leaves the store
untouched; only a sync that returns normally rewrites the store (via
`update_file_backup_time`); and in every case the uploads already applied
remain on the remote side at their local sizes (no rollback). -/
theorem last_backup_only_on_success (scanOk listOk : Bool) (okU okD : String → Bool)
    (store : List TrackedTarget) (tpath now : String) (lf rf : List (String × Int)) :
    (scanOk = false ∨ listOk = false →
        directoryJob scanOk listOk okU okD store tpath now lf rf = (store, rf, false)) ∧
    ((sync_directory okU okD lf rf).result = none →
        (directoryJob true true okU okD store tpath now lf rf).1 = store ∧
        (directoryJob true true okU okD store tpath now lf rf).2.2 = false) ∧
    (∀ c, (sync_directory okU okD lf rf).result = some c →
        directoryJob true true okU okD store tpath now lf rf =
          (update_file_backup_time store tpath now,
           applyReqs lf (sync_directory okU okD lf rf).applied rf, true)) ∧
    (∀ p, Req.upload p ∈ (sync_directory okU okD lf rf).applied →
        dlookup (directoryJob true true okU okD store tpath now lf rf).2.1 p =
          dlookup lf p) := by
  refine ⟨?_, ?_, ?_, ?_⟩
  · intro h
    unfold directoryJob
    rw [if_pos h]
  · intro h
    unfold directoryJob
    rw [if_neg (by simp)]
    simp [h]
  · intro c h
    unfold directoryJob
    rw [if_neg (by simp)]
    simp [h]
  · intro p hp
    unfold directoryJob
    rw [if_neg (by simp)]
    cases hres : (sync_directory okU okD lf rf).result with
    | none =>
        simp only [hres]
        exact applied_upload_persists okU okD lf rf p hp
    | some c =>
        simp only [hres]
        exact applied_upload_persists okU okD lf rf p hp

/-- Witness for C6: a sync whose only upload fails leaves the tracking record
untouched, while a fully successful sync rewrites the store through
`update_file_backup_time`. -/
theorem last_backup_only_on_success_witness :
    (directoryJob true true (fun _ => false) (fun _ => true)
        [⟨"/data", none, "t0"⟩] "/data" "t1" [("a", (1 : Int))] []).1 =
      [⟨"/data", none, "t0"⟩] ∧
    directoryJob true true (fun _ => true) (fun _ => true)
        [⟨"/data", none, "t0"⟩] "/data" "t1" [("a", (1 : Int))] [] =
      (update_file_backup_time [⟨"/data", none, "t0"⟩] "/data" "t1",
       applyReqs [("a", (1 : Int))]
         (sync_directory (fun _ => true) (fun _ => true) [("a", (1 : Int))] []).applied [],
       true) :=
  ⟨((last_backup_only_on_success true true (fun _ => false) (fun _ => true)
      [⟨"/data", none, "t0"⟩] "/data" "t1" [("a", 1)] []).2.1 (by rfl)).1,
   (last_backup_only_on_success true true (fun _ => true) (fun _ => true)
      [⟨"/data", none, "t0"⟩] "/data" "t1" [("a", 1)] []).2.2.1 (1, 0) (by rfl)⟩

/-- C7: deleting a remote file by relative path is idempotent at the client
boundary: deleting an existing file returns 200 and removes it, a second
delete of the same path (and generally any delete of an absent path) returns
404 rather than crashing, and the client's `delete_remote_file` accepts both
200 and 404 without raising. -/
theorem delete_by_path_idempotent (base : String) (fs : List String)
    (rp full norm : String)
    (hres : resolve_path_under_upload base (some rp) = .ok (full, norm))
    (hrp : rp ≠ "") (hfile : fsIsFile fs norm = true) (hdir : fsIsDir fs norm = false) :
    ((delete_file_by_path base fs (some rp)).1.status = 200 ∧
     (delete_file_by_path base fs (some rp)).2 = fsRemove fs norm ∧
     (delete_file_by_path base (fsRemove fs norm) (some rp)).1.status = 404 ∧
     delete_remote_file_check 200 = .ok () ∧
     delete_remote_file_check 404 = .ok ()) ∧
    (∀ fs', fsExists fs' norm = false →
        (delete_file_by_path base fs' (some rp)).1.status = 404) := by
  have habsent : ∀ fs', fsExists fs' norm = false →
      (delete_file_by_path base fs' (some rp)).1.status = 404 := by
    intro fs' hex
    rw [delete_some, if_neg hrp, hres]
    simp [hex]
  refine ⟨⟨?_, ?_, ?_, rfl, rfl⟩, habsent⟩
  · rw [delete_some, if_neg hrp, hres]
    have hex : fsExists fs norm = true := by
      unfold fsExists
      rw [hfile]
      rfl
    simp [hex, hfile]
  · rw [delete_some, if_neg hrp, hres]
    have hex : fsExists fs norm = true := by
      unfold fsExists
      rw [hfile]
      rfl
    simp [hex, hfile]
  · apply habsent
    unfold fsExists
    rw [fsIsFile_fsRemove, fsIsDir_fsRemove fs norm norm hdir]
    rfl

/-- Witness for C7 at `base = "/srv/backup"`, one stored file
`photos/a.txt`: the first delete returns 200, the second 404, and the client
raises on neither status. -/
theorem delete_by_path_idempotent_witness :
    (delete_file_by_path "/srv/backup" ["photos/a.txt"] (some "photos/a.txt")).1.status =
        200 ∧
    (delete_file_by_path "/srv/backup" ["photos/a.txt"] (some "photos/a.txt")).2 =
        fsRemove ["photos/a.txt"] "photos/a.txt" ∧
    (delete_file_by_path "/srv/backup" (fsRemove ["photos/a.txt"] "photos/a.txt")
        (some "photos/a.txt")).1.status = 404 ∧
    delete_remote_file_check 200 = .ok () ∧
    delete_remote_file_check 404 = .ok () :=
  (delete_by_path_idempotent "/srv/backup" ["photos/a.txt"] "photos/a.txt"
    "/srv/backup/photos/a.txt" "photos/a.txt" (by rfl) (by decide)
    (by rfl) (by rfl)).1

/-- C9 counterexample: the claim says malformed entries of the
directory-listing response are silently dropped rather than raising, but a
non-object entry makes `item.get('path')` raise `AttributeError`, which
propagates out of the snapshot build. -/
theorem snapshot_nonobject_entry_raises :
    buildRemoteSnapshot [Json.num 3] [] = .error "AttributeError" :=
  rfl

/-- C9 as amended: provided every entry of the listing response is a JSON
object, the build succeeds, and a path is a key of the resulting snapshot iff
some entry's `path` field is that string and its `size` field satisfies
`isinstance(-, int)`; entries with missing or differently-typed fields are
silently dropped — but a non-object entry makes the whole listing call raise
instead of being dropped. -/
theorem snapshot_membership_amended (items : List Json) (h : items.all isObj = true) :
    (∃ snap, buildRemoteSnapshot items [] = .ok snap) ∧
    ∀ p, (buildHasKey (buildRemoteSnapshot items []) p ↔
        ∃ j ∈ items, entryYields j p = true) := by
  rcases buildRemoteSnapshot_spec items [] h with ⟨snap, hsnap, hiff⟩
  refine ⟨⟨snap, hsnap⟩, ?_⟩
  intro p
  rw [hsnap]
  show dlookup snap p ≠ none ↔ ∃ j ∈ items, entryYields j p = true
  rw [hiff p]
  simp [dlookup]

/-- Witness for C9's amended theorem on a two-entry response whose second
entry has a non-string `path`: only `a` enters the snapshot. -/
theorem snapshot_membership_amended_witness :
    buildHasKey (buildRemoteSnapshot
        [Json.obj [("path", Json.str "a"), ("size", Json.num 3)],
         Json.obj [("path", Json.num 1), ("size", Json.num 2)]] []) "a" ↔
      ∃ j ∈ [Json.obj [("path", Json.str "a"), ("size", Json.num 3)],
             Json.obj [("path", Json.num 1), ("size", Json.num 2)]],
        entryYields j "a" = true :=
  (snapshot_membership_amended
    [Json.obj [("path", Json.str "a"), ("size", Json.num 3)],
     Json.obj [("path", Json.num 1), ("size", Json.num 2)]] (by rfl)).2 "a"

end NASBackup
